import Mathlib

/-!
Verification development for the Shapescape NBT Replacer
(`src/shapescape_nbt_replacer/nbt_replacer.js`).

The development shallowly embeds:
* the tree model of decoded NBT documents (deepslate tags as the replacer
  uses them: compound, list, string, and all other tag kinds collapsed
  into one opaque-leaf constructor),
* the matcher/replacer engine `replaceStringsDeep`,
* the string-tag counter `logAllStringTags` and the alternate-parse retry
  phase of `processFile`,
* the write-back decision of `processFile`,
* the per-rule validation loop of `main`, and
* the `AdaptiveConcurrencyController` (durations as exact rationals).

The JavaScript regular-expression engine is external to the repository, so
the compiled-regex substitution `oldVal.replace(regex, to)` is passed to
the embedded engine as an abstract function `subst : String → String`.
-/

namespace NbtReplacer

/-- Tree model: one decoded NBT tag as the replacer distinguishes them.
`compound` holds the ordered key/child pairs (`tag.keys()` order),
`list` the index-ordered elements, `string` a string leaf, and `other`
stands for every remaining tag kind, which `replaceStringsDeep` and
`logAllStringTags` never descend into (their final `return 0`). -/
inductive NbtTag : Type where
  | string (v : String)
  | compound (entries : List (String × NbtTag))
  | list (items : List NbtTag)
  | other
deriving Repr, Inhabited

/-- One replacement rule as consumed by the engine: `property` is
`rule.property ?? null` (`none` models `null`), `fromStr`/`toStr` are the
(string-coerced) `from`/`to` fields, and `useRegex` is `rule.regex === true`.
The compiled regex itself is modelled separately as a substitution
function. -/
structure Rule where
  property : Option String
  fromStr : String
  toStr : String
  useRegex : Bool
deriving Repr, DecidableEq

/-- JS truthiness test `!property` for `property : string | null`:
true exactly when the filter is `null` or the empty string. -/
def propertyFalsy : Option String → Bool
  | none => true
  | some p => p == ""

/-- Eligibility of a compound child under key `k`:
`!property || property === k` (line 484 of the source). -/
def compoundEligible (property : Option String) (k : String) : Bool :=
  propertyFalsy property || property == some k

/-- Eligibility of a list element: `!property` (line 529 of the source);
list elements have no key, so only the truthiness test remains. -/
def listEligible (property : Option String) : Bool :=
  propertyFalsy property

/-- The per-leaf match/replace decision that the source inlines verbatim in
both the compound branch (lines 486-505) and the list branch
(lines 532-551): in regex mode the candidate new value is
`oldVal.replace(regex, to)` — modelled by `subst` — and a replacement
happens exactly when it differs from the old value; otherwise a
replacement happens exactly when the whole value equals `from`, and the
new value is `to` verbatim.  (In every call from `main`/`processFile` the
compiled `regex` is non-null precisely when `useRegex` holds, so the
source's `useRegex && regex` test is modelled by `useRegex` alone.) -/
def leafReplacement (R : Rule) (subst : String → String) (v : String) :
    Option String :=
  if R.useRegex then
    let newVal := subst v
    if newVal ≠ v then some newVal else none
  else if v = R.fromStr then some R.toStr else none

/-- One change event as delivered to the `onReplace` callback:
the joined tag path, the old value and the new value. -/
structure ChangeEvent where
  path : String
  oldValue : String
  newValue : String
deriving Repr, DecidableEq

mutual

/-- `replaceStringsDeep` from the source (lines 460-570): returns the tag
after mutation, the number of replacements (`changes`), and the list of
`onReplace` invocations in order (the callback is modelled as always
present, i.e. `notify` mode). A bare string or any other leaf at the
current node returns immediately with zero changes (lines 474-476, 569). -/
def replaceStringsDeep (R : Rule) (subst : String → String)
    (pathParts : List String) :
    NbtTag → NbtTag × Nat × List ChangeEvent
  | .string v => (.string v, 0, [])
  | .other => (.other, 0, [])
  | .compound es =>
      let r := replaceEntries R subst pathParts es
      (.compound r.1, r.2.1, r.2.2)
  | .list xs =>
      let r := replaceItems R subst pathParts 0 xs
      (.list r.1, r.2.1, r.2.2)

/-- The compound branch of `replaceStringsDeep` (lines 478-521): for each
key in stored order, an eligible string child whose match fires is
replaced in place (`tag.set(k, new NbtString(...))`, `continue`); every
other child is recursed into with the key appended to the path. -/
def replaceEntries (R : Rule) (subst : String → String)
    (pathParts : List String) :
    List (String × NbtTag) →
      List (String × NbtTag) × Nat × List ChangeEvent
  | [] => ([], 0, [])
  | (k, c) :: rest =>
      let step : NbtTag × Nat × List ChangeEvent :=
        match c with
        | .string v =>
            match (if compoundEligible R.property k then
                     leafReplacement R subst v
                   else none) with
            | some w =>
                (NbtTag.string w, 1,
                  [⟨String.intercalate " > " (pathParts ++ [k]), v, w⟩])
            | none => replaceStringsDeep R subst (pathParts ++ [k]) (.string v)
        | c' => replaceStringsDeep R subst (pathParts ++ [k]) c'
      let r := replaceEntries R subst pathParts rest
      ((k, step.1) :: r.1, step.2.1 + r.2.1, step.2.2 ++ r.2.2)

/-- The list branch of `replaceStringsDeep` (lines 523-567): elements in
index order, the path segment being `[i]`. -/
def replaceItems (R : Rule) (subst : String → String)
    (pathParts : List String) (i : Nat) :
    List NbtTag → List NbtTag × Nat × List ChangeEvent
  | [] => ([], 0, [])
  | c :: rest =>
      let step : NbtTag × Nat × List ChangeEvent :=
        match c with
        | .string v =>
            match (if listEligible R.property then
                     leafReplacement R subst v
                   else none) with
            | some w =>
                (NbtTag.string w, 1,
                  [⟨String.intercalate " > "
                      (pathParts ++ ["[" ++ toString i ++ "]"]), v, w⟩])
            | none =>
                replaceStringsDeep R subst
                  (pathParts ++ ["[" ++ toString i ++ "]"]) (.string v)
        | c' =>
            replaceStringsDeep R subst
              (pathParts ++ ["[" ++ toString i ++ "]"]) c'
      let r := replaceItems R subst pathParts (i + 1) rest
      (step.1 :: r.1, step.2.1 + r.2.1, step.2.2 ++ r.2.2)

end

/-- One replaced leaf as the specification describes it: the path segments
from the enclosing subtree's root to the leaf (mapping keys as literal
segments, sequence indices as `[i]`), the old value and the new value. -/
structure LeafChange where
  segs : List String
  oldValue : String
  newValue : String
deriving Repr, DecidableEq

/-- Renders a leaf change rooted below `pp` into the engine's change event:
the full segment list joined with `" > "`. -/
def renderEvent (pp : List String) (e : LeafChange) : ChangeEvent :=
  ⟨String.intercalate " > " (pp ++ e.segs), e.oldValue, e.newValue⟩

mutual

/-- Specification-side description of the engine's output tree: every
code-eligible string leaf that is a direct mapping child or sequence
element is mapped through the per-leaf replacement decision (kept as is
when the decision is `none`), everything else is kept unchanged. -/
def replacedTree (R : Rule) (subst : String → String) : NbtTag → NbtTag
  | .string v => .string v
  | .other => .other
  | .compound es => .compound (replacedEntries R subst es)
  | .list xs => .list (replacedItems R subst xs)

/-- Mapping children of `replacedTree`. -/
def replacedEntries (R : Rule) (subst : String → String) :
    List (String × NbtTag) → List (String × NbtTag)
  | [] => []
  | (k, c) :: rest =>
      (k, match c with
          | .string v =>
              NbtTag.string (if compoundEligible R.property k then
                               (leafReplacement R subst v).getD v
                             else v)
          | c' => replacedTree R subst c') :: replacedEntries R subst rest

/-- Sequence elements of `replacedTree`. -/
def replacedItems (R : Rule) (subst : String → String) :
    List NbtTag → List NbtTag
  | [] => []
  | c :: rest =>
      (match c with
       | .string v =>
           NbtTag.string (if listEligible R.property then
                            (leafReplacement R subst v).getD v
                          else v)
       | c' => replacedTree R subst c') :: replacedItems R subst rest

end

mutual

/-- Specification-side collector (spec §3 "Change Event" and §4.3): the
depth-first ordered list of leaves on which the rule fires — mapping keys
in stored order, then sequence elements in index order — each with its
path segments relative to the given node, its old value and its new
value. -/
def matchingLeaves (R : Rule) (subst : String → String) :
    NbtTag → List LeafChange
  | .string _ => []
  | .other => []
  | .compound es => matchingLeavesEntries R subst es
  | .list xs => matchingLeavesItems R subst 0 xs

/-- Mapping children of `matchingLeaves`. -/
def matchingLeavesEntries (R : Rule) (subst : String → String) :
    List (String × NbtTag) → List LeafChange
  | [] => []
  | (k, c) :: rest =>
      (match c with
       | .string v =>
           match (if compoundEligible R.property k then
                    leafReplacement R subst v
                  else none) with
           | some w => [⟨[k], v, w⟩]
           | none => []
       | c' => (matchingLeaves R subst c').map
                 fun e => ⟨k :: e.segs, e.oldValue, e.newValue⟩)
      ++ matchingLeavesEntries R subst rest

/-- Sequence elements of `matchingLeaves`, carrying the element index. -/
def matchingLeavesItems (R : Rule) (subst : String → String) (i : Nat) :
    List NbtTag → List LeafChange
  | [] => []
  | c :: rest =>
      (match c with
       | .string v =>
           match (if listEligible R.property then
                    leafReplacement R subst v
                  else none) with
           | some w => [⟨["[" ++ toString i ++ "]"], v, w⟩]
           | none => []
       | c' => (matchingLeaves R subst c').map
                 fun e => ⟨("[" ++ toString i ++ "]") :: e.segs,
                           e.oldValue, e.newValue⟩)
      ++ matchingLeavesItems R subst (i + 1) rest

end

theorem renderEvent_cons (pp : List String) (seg : String) (e : LeafChange) :
    renderEvent pp ⟨seg :: e.segs, e.oldValue, e.newValue⟩
      = renderEvent (pp ++ [seg]) e := by
  simp [renderEvent]

mutual

/-- The count computed by `logAllStringTags` (source lines 582-627): the
number of string tags anywhere in the tree, a root string included; the
rule's property filter and match context only decorate the debug output
(`matchMark`) and never affect the returned count. -/
def countStringTags : NbtTag → Nat
  | .string _ => 1
  | .other => 0
  | .compound es => countStringTagsEntries es
  | .list xs => countStringTagsItems xs

/-- Compound children of `countStringTags`. -/
def countStringTagsEntries : List (String × NbtTag) → Nat
  | [] => 0
  | (_, c) :: rest => countStringTags c + countStringTagsEntries rest

/-- List elements of `countStringTags`. -/
def countStringTagsItems : List NbtTag → Nat
  | [] => 0
  | c :: rest => countStringTags c + countStringTagsItems rest

end

/-- The retry loop of `processFile` (source lines 386-410): each retry
strategy either fails to parse (`none`, the thrown error is swallowed) or
yields a tree; the first tree with a positive `logAllStringTags` count is
switched to, otherwise the originally accepted tree is kept. -/
def retrySearch (dflt : NbtTag) : List (Option NbtTag) → NbtTag
  | [] => dflt
  | none :: rest => retrySearch dflt rest
  | some t :: rest =>
      if 0 < countStringTags t then t else retrySearch dflt rest

/-- The format-resolution escalation of `processFile` (source lines
380-411): the retry strategies are consulted only when the accepted
tree's `logAllStringTags` count is zero; the tree returned here is the
one handed to the replacement phase. -/
def resolveTreeForReplacement (accepted : NbtTag)
    (retryResults : List (Option NbtTag)) : NbtTag :=
  if countStringTags accepted = 0 then retrySearch accepted retryResults
  else accepted

/-- Result of the post-decode stage of `processFile`: the per-file
counters it returns, whether `fs.writeFile` ran, and the tree that the
file holds afterwards (the re-encoded tree when written, the original
contents otherwise). -/
structure FileOutcome where
  filesChanged : Nat
  stringsChanged : Nat
  wroteFile : Bool
  finalTree : NbtTag
deriving Repr

/-- The replacement-and-write-back stage of `processFile` (source lines
422-439): run the engine on the resolved tree; when `changed > 0` the
mutated tree is encoded and written back and the file counts as changed,
otherwise nothing is written and both counters are zero. -/
def processDecodedTree (R : Rule) (subst : String → String)
    (t : NbtTag) : FileOutcome :=
  let r := replaceStringsDeep R subst [] t
  if 0 < r.2.1 then ⟨1, r.2.1, true, r.1⟩ else ⟨0, 0, false, t⟩

/-- One raw rule record as `main` reads it from the parsed JSON
(source lines 231-263): `path`, `from` and `to` may be absent
(`undefined`); `regex` is `rule.regex === true`; `regexCompiles` models
whether `new RegExp(normPattern, flags)` succeeds — the regex engine is
external to the repository. -/
structure RawRule where
  path : Option String
  fromField : Option String
  toField : Option String
  regex : Bool
  regexCompiles : Bool
deriving Repr, DecidableEq

/-- The validation test of `main` (line 242):
`!globPattern || rule.from === undefined || rule.to === undefined`
(a missing or empty `path` is falsy). -/
def ruleInvalid (r : RawRule) : Bool :=
  (match r.path with | none => true | some s => s == "")
    || r.fromField.isNone || r.toField.isNone

/-- The per-rule loop of `main` (source lines 231-304), starting at rule
index `i`: each rule is validated only when the loop reaches it; a failed
validation or a failed regex compilation calls `process.exit(1)` on the
spot.  Returns the indices of the rules whose file-processing stage
(glob, read, replace, write back) was reached, and whether the run exited
early with a non-zero code. -/
def mainRuleLoop : Nat → List RawRule → List Nat × Bool
  | _, [] => ([], false)
  | i, r :: rest =>
      if ruleInvalid r then ([], true)
      else if r.regex && !r.regexCompiles then ([], true)
      else
        let tail := mainRuleLoop (i + 1) rest
        (i :: tail.1, tail.2)

/-- Models the JavaScript global literal substitution
`v.replace(/ab/g, "ba")`: scan left to right, replacing every
non-overlapping occurrence of `"ab"` by `"ba"`.  Used as one concrete
instance of the external regex engine for the rule
`{from: "ab", to: "ba", regex: true, flags: "g"}`. -/
def replaceAbBaChars : List Char → List Char
  | [] => []
  | 'a' :: 'b' :: rest => 'b' :: 'a' :: replaceAbBaChars rest
  | c :: rest => c :: replaceAbBaChars rest

/-- String wrapper of `replaceAbBaChars`. -/
def substAbBa (v : String) : String :=
  ⟨replaceAbBaChars v.data⟩

/-- `AdaptiveConcurrencyController` state (source lines 59-81), restricted
to the fields the feedback loop reads and writes.  Durations are
`Date.now()` differences; they are modelled as exact rationals, and the
literals `0.8`/`1.2` as `4/5`/`6/5`.  The fixed fields `maxTimeHistory`
and `adjustmentInterval` are inlined as the literals `10` and `5` the
constructor always assigns. -/
structure Controller where
  maxConcurrency : Nat
  currentConcurrency : Nat
  recentTimes : List ℚ
  completedSinceAdjust : Nat
deriving Repr, DecidableEq

/-- The constructor (source lines 64-81):
`maxConcurrency = Math.max(1, initialConcurrency)`,
`currentConcurrency = Math.max(1, Math.floor(initialConcurrency / 2))`,
empty history, zero completion counter. -/
def mkController (initialConcurrency : Nat) : Controller :=
  { maxConcurrency := Nat.max 1 initialConcurrency
    currentConcurrency := Nat.max 1 (initialConcurrency / 2)
    recentTimes := []
    completedSinceAdjust := 0 }

/-- `avgTime` of `adjustConcurrency` (source lines 152-153): mean of the
full rolling history. -/
def avgTime (c : Controller) : ℚ :=
  c.recentTimes.sum / c.recentTimes.length

/-- `recentAvg` of `adjustConcurrency` (source line 154): mean of
`recentTimes.slice(-3)`, i.e. of the last three samples (of the whole
history when fewer are recorded, a case the guard rules out). -/
def recentAvg (c : Controller) : ℚ :=
  (c.recentTimes.drop (c.recentTimes.length - 3)).sum / 3

/-- `adjustConcurrency` (source lines 149-177): no-op below three
samples; grow by one — clamped by `Math.min` at the ceiling — when the
recent mean is below `0.8` of the overall mean and the ceiling is not yet
reached; else shrink by one — clamped by `Math.max` at `1` — when the
recent mean is above `1.2` of the overall mean and the level is above
`1`; else leave the level unchanged. -/
def adjustConcurrency (c : Controller) : Controller :=
  if c.recentTimes.length < 3 then c
  else if recentAvg c < avgTime c * (4 / 5 : ℚ)
          ∧ c.currentConcurrency < c.maxConcurrency then
    { c with currentConcurrency :=
        Nat.min c.maxConcurrency (c.currentConcurrency + 1) }
  else if avgTime c * (6 / 5 : ℚ) < recentAvg c
          ∧ 1 < c.currentConcurrency then
    { c with currentConcurrency :=
        Nat.max 1 (c.currentConcurrency - 1) }
  else c

/-- The history update of `recordCompletion` (source lines 132-135): push
the new duration, and shift the oldest sample out when the history
exceeds ten entries. -/
def pushDuration (c : Controller) (duration : ℚ) : Controller :=
  let times := c.recentTimes ++ [duration]
  { c with recentTimes := if 10 < times.length then times.drop 1 else times }

/-- `recordCompletion` (source lines 131-142): record the duration, bump
the completion counter, and when it reaches the adjustment interval of
five, run `adjustConcurrency` and reset the counter to zero. -/
def recordCompletion (c : Controller) (duration : ℚ) : Controller :=
  let c1 := pushDuration c duration
  let c2 := { c1 with completedSinceAdjust := c1.completedSinceAdjust + 1 }
  if 5 ≤ c2.completedSinceAdjust then
    { adjustConcurrency c2 with completedSinceAdjust := 0 }
  else c2

/-- The controller invariant from spec §3:
`1 ≤ currentConcurrency ≤ maxConcurrency`. -/
def ControllerInv (c : Controller) : Prop :=
  1 ≤ c.currentConcurrency ∧ c.currentConcurrency ≤ c.maxConcurrency

/-- Master refinement lemma: the engine returns exactly the
specification-side tree, the number of collected leaf changes, and their
rendering with the ambient path. -/
theorem engine_eq_spec (R : Rule) (subst : String → String) :
    ∀ (pp : List String) (t : NbtTag),
      replaceStringsDeep R subst pp t
        = (replacedTree R subst t, (matchingLeaves R subst t).length,
           (matchingLeaves R subst t).map (renderEvent pp)) :=
  replaceStringsDeep.induct R subst
    (fun pp t => replaceStringsDeep R subst pp t
        = (replacedTree R subst t, (matchingLeaves R subst t).length,
           (matchingLeaves R subst t).map (renderEvent pp)))
    (fun pp i xs => replaceItems R subst pp i xs
        = (replacedItems R subst xs, (matchingLeavesItems R subst i xs).length,
           (matchingLeavesItems R subst i xs).map (renderEvent pp)))
    (fun pp es => replaceEntries R subst pp es
        = (replacedEntries R subst es, (matchingLeavesEntries R subst es).length,
           (matchingLeavesEntries R subst es).map (renderEvent pp)))
    (by intro pp v
        simp [replaceStringsDeep, replacedTree, matchingLeaves])
    (by intro pp
        simp [replaceStringsDeep, replacedTree, matchingLeaves])
    (by intro pp es ih
        simp [replaceStringsDeep, replacedTree, matchingLeaves, ih])
    (by intro pp xs ih
        simp [replaceStringsDeep, replacedTree, matchingLeaves, ih])
    (by intro pp
        simp [replaceEntries, replacedEntries, matchingLeavesEntries])
    (by intro pp k c rest ih1 ih2
        cases c with
        | string v =>
            simp only at ih1
            simp only [replaceEntries, replacedEntries, matchingLeavesEntries, ih2]
            cases h : (if compoundEligible R.property k then
                         leafReplacement R subst v else none) with
            | some w =>
                simp [h, replaceStringsDeep, matchingLeaves, renderEvent]
                split at h
                · simp_all
                  omega
                · simp_all
            | none =>
                simp [h, replaceStringsDeep, matchingLeaves, renderEvent]
                split at h
                · simp_all
                · simp_all
        | other =>
            simp only at ih1
            simp [replaceEntries, replacedEntries, matchingLeavesEntries,
              ih1, ih2, replaceStringsDeep, replacedTree, matchingLeaves]
        | compound es' =>
            simp only at ih1
            simp only [replaceEntries, replacedEntries, matchingLeavesEntries,
              ih1, ih2]
            simp [List.map_map, Function.comp, renderEvent_cons, renderEvent]
        | list xs' =>
            simp only at ih1
            simp only [replaceEntries, replacedEntries, matchingLeavesEntries,
              ih1, ih2]
            simp [List.map_map, Function.comp, renderEvent_cons, renderEvent])
    (by intro pp i
        simp [replaceItems, replacedItems, matchingLeavesItems])
    (by intro pp i c rest ih1 ih2
        cases c with
        | string v =>
            simp only at ih1
            simp only [replaceItems, replacedItems, matchingLeavesItems, ih2]
            cases h : (if listEligible R.property then
                         leafReplacement R subst v else none) with
            | some w =>
                simp [h, replaceStringsDeep, matchingLeaves, renderEvent]
                split at h
                · simp_all
                  omega
                · simp_all
            | none =>
                simp [h, replaceStringsDeep, matchingLeaves, renderEvent]
                split at h
                · simp_all
                · simp_all
        | other =>
            simp only at ih1
            simp [replaceItems, replacedItems, matchingLeavesItems,
              ih1, ih2, replaceStringsDeep, replacedTree, matchingLeaves]
        | compound es' =>
            simp only at ih1
            simp only [replaceItems, replacedItems, matchingLeavesItems,
              ih1, ih2]
            simp [List.map_map, Function.comp, renderEvent_cons, renderEvent]
        | list xs' =>
            simp only at ih1
            simp only [replaceItems, replacedItems, matchingLeavesItems,
              ih1, ih2]
            simp [List.map_map, Function.comp, renderEvent_cons, renderEvent])

/-- In whole-value mode the decision applied to an already-decided leaf
value never fires again, provided the replacement string differs from the
searched string. -/
theorem leafReplacement_getD_exact (R : Rule) (subst subst2 : String → String)
    (h : R.useRegex = false) (hne : R.toStr ≠ R.fromStr) (v : String) :
    leafReplacement R subst2 ((leafReplacement R subst v).getD v) = none := by
  simp [leafReplacement, h]
  split_ifs <;> simp_all

/-- After a whole-value pass with a replacement string different from the
searched string, no eligible leaf of the output matches any more. -/
theorem matchingLeaves_replacedTree_exact (R : Rule)
    (subst subst2 : String → String)
    (h : R.useRegex = false) (hne : R.toStr ≠ R.fromStr) :
    ∀ t, matchingLeaves R subst2 (replacedTree R subst t) = [] :=
  replacedTree.induct R subst
    (fun t => matchingLeaves R subst2 (replacedTree R subst t) = [])
    (fun xs => ∀ j,
      matchingLeavesItems R subst2 j (replacedItems R subst xs) = [])
    (fun es =>
      matchingLeavesEntries R subst2 (replacedEntries R subst es) = [])
    (by intro v; simp [replacedTree, matchingLeaves])
    (by simp [replacedTree, matchingLeaves])
    (by intro es ih; simp [replacedTree, matchingLeaves, ih])
    (by intro xs ih; simp [replacedTree, matchingLeaves, ih 0])
    (by simp [replacedEntries, matchingLeavesEntries])
    (by intro k c rest ih1 ih2
        cases c with
        | string v =>
            by_cases he : compoundEligible R.property k = true
            · simp [replacedEntries, matchingLeavesEntries, ih2, he,
                leafReplacement_getD_exact R subst subst2 h hne v]
            · simp [replacedEntries, matchingLeavesEntries, ih2, he]
        | other =>
            simp [replacedEntries, matchingLeavesEntries, ih2,
              replacedTree, matchingLeaves]
        | compound es' =>
            simp only at ih1
            simp only [replacedTree, matchingLeaves] at ih1
            simp [replacedEntries, matchingLeavesEntries, replacedTree,
              matchingLeaves, ih1, ih2]
        | list xs' =>
            simp only at ih1
            simp only [replacedTree, matchingLeaves] at ih1
            simp [replacedEntries, matchingLeavesEntries, replacedTree,
              matchingLeaves, ih1, ih2])
    (by intro j; simp [replacedItems, matchingLeavesItems])
    (by intro c rest ih1 ih2 j
        cases c with
        | string v =>
            by_cases hl : listEligible R.property = true
            · simp [replacedItems, matchingLeavesItems, ih2, hl,
                leafReplacement_getD_exact R subst subst2 h hne v]
            · simp [replacedItems, matchingLeavesItems, ih2, hl]
        | other =>
            simp [replacedItems, matchingLeavesItems, ih2,
              replacedTree, matchingLeaves]
        | compound es' =>
            simp only at ih1
            simp only [replacedTree, matchingLeaves] at ih1
            simp [replacedItems, matchingLeavesItems, replacedTree,
              matchingLeaves, ih1, ih2]
        | list xs' =>
            simp only at ih1
            simp only [replacedTree, matchingLeaves] at ih1
            simp [replacedItems, matchingLeavesItems, replacedTree,
              matchingLeaves, ih1, ih2])

/-- The retry loop keeps the first successfully parsed retry tree with a
positive string-tag count, and falls back to the accepted tree. -/
theorem retrySearch_eq_find (dflt : NbtTag) :
    ∀ rs : List (Option NbtTag),
      retrySearch dflt rs
        = (((rs.filterMap id).find? fun t =>
              decide (0 < countStringTags t)).getD dflt)
  | [] => by simp [retrySearch]
  | none :: rest => by
      simp [retrySearch, retrySearch_eq_find dflt rest]
  | some t :: rest => by
      by_cases h0 : 0 < countStringTags t
      · simp [retrySearch, h0, List.find?]
      · simp [retrySearch, h0, List.find?, retrySearch_eq_find dflt rest]

/-- With at least three samples, the adjusted concurrency level is
described by the two guarded branches of the feedback loop. -/
theorem adjust_characterization (c : Controller)
    (h3 : 3 ≤ c.recentTimes.length) :
    (adjustConcurrency c).currentConcurrency =
      if recentAvg c < avgTime c * (4 / 5 : ℚ)
          ∧ c.currentConcurrency < c.maxConcurrency
      then c.currentConcurrency + 1
      else if avgTime c * (6 / 5 : ℚ) < recentAvg c
          ∧ 1 < c.currentConcurrency
      then c.currentConcurrency - 1
      else c.currentConcurrency := by
  unfold adjustConcurrency
  rw [if_neg (by omega)]
  by_cases hA : recentAvg c < avgTime c * (4 / 5 : ℚ)
      ∧ c.currentConcurrency < c.maxConcurrency
  · rw [if_pos hA, if_pos hA]
    simp
    omega
  · rw [if_neg hA, if_neg hA]
    by_cases hB : avgTime c * (6 / 5 : ℚ) < recentAvg c
        ∧ 1 < c.currentConcurrency
    · rw [if_pos hB, if_pos hB]
      simp
      omega
    · rw [if_neg hB, if_neg hB]

/-- C1: with `isPatternMatch = false` the engine's output tree is the map
over code-eligible leaves through the per-leaf decision, and that decision
replaces a value — with `toTemplate` verbatim — exactly when the whole
value equals `fromPattern`; any other value (a value merely containing
`fromPattern` as a proper substring included) is left unchanged. -/
theorem c1_exact_whole_value (R : Rule) (subst : String → String)
    (pp : List String) (t : NbtTag) (h : R.useRegex = false) :
    (replaceStringsDeep R subst pp t).1 = replacedTree R subst t
    ∧ ∀ v, leafReplacement R subst v
        = if v = R.fromStr then some R.toStr else none := by
  constructor
  · rw [engine_eq_spec]
  · intro v; simp [leafReplacement, h]

theorem c1_exact_whole_value_witness :
    (replaceStringsDeep ⟨none, "west", "north", false⟩ (fun s => s) []
        (NbtTag.compound [("a", .string "west"), ("b", .string "western")])).1
      = NbtTag.compound [("a", .string "north"), ("b", .string "western")]
    ∧ leafReplacement ⟨none, "west", "north", false⟩ (fun s => s) "western"
      = none := by
  have h := c1_exact_whole_value ⟨none, "west", "north", false⟩ (fun s => s) []
      (NbtTag.compound [("a", .string "west"), ("b", .string "western")]) rfl
  constructor
  · rw [h.1]
    simp [replacedTree, replacedEntries, compoundEligible, propertyFalsy,
      leafReplacement]
  · rw [h.2 "western"]
    simp

/-- C2, counterexample: the rule's `propertyFilter` is present
(`some ""`) and differs from the mapping key `"facingX"`, yet the engine
replaces both the mapping-child leaf and a sequence element — the source
tests JS truthiness (`!property`), under which an empty-string filter
behaves as if absent, contradicting the claimed "absent or equals `k`"
eligibility and the claim that a rule with a `propertyFilter` never
changes any sequence element. -/
theorem c2_counterexample :
    replaceStringsDeep ⟨some "", "west", "north", false⟩ (fun s => s) []
        (NbtTag.compound
          [("facingX", .string "west"), ("L", .list [.string "west"])])
      = (NbtTag.compound
          [("facingX", .string "north"), ("L", .list [.string "north"])], 2,
         [⟨"facingX", "west", "north"⟩, ⟨"L > [0]", "west", "north"⟩])
    ∧ (some "" : Option String) ≠ none
    ∧ (some "" : Option String) ≠ some "facingX" := by
  refine ⟨?_, by simp, by simp⟩
  simp [replaceStringsDeep, replaceEntries, replaceItems, compoundEligible,
    listEligible, propertyFalsy, leafReplacement, String.intercalate]
  decide

/-- C2, amended: a mapping-child string leaf under key `k` is eligible iff
the rule's `propertyFilter` is absent, empty, or equal to `k`; a sequence
element is eligible iff the filter is absent or empty; the engine's
output tree is exactly the map over leaves eligible in this sense. -/
theorem c2_eligibility_amended (R : Rule) (subst : String → String)
    (pp : List String) (t : NbtTag) (k : String) :
    (replaceStringsDeep R subst pp t).1 = replacedTree R subst t
    ∧ (compoundEligible R.property k = true ↔
        R.property = none ∨ R.property = some "" ∨ R.property = some k)
    ∧ (listEligible R.property = true ↔
        R.property = none ∨ R.property = some "") := by
  refine ⟨by rw [engine_eq_spec], ?_, ?_⟩ <;>
    cases hp : R.property <;>
      simp [compoundEligible, listEligible, propertyFalsy]

/-- C3, counterexample: a rule list whose second rule is missing `from`
still reaches the file-processing stage of its first, valid rule (index
`0` is in the processed list) before the run exits non-zero — validation
happens per rule inside the processing loop, not before any file
processing begins. -/
theorem c3_counterexample :
    ruleInvalid ⟨some "**", none, some "b", false, true⟩ = true
    ∧ mainRuleLoop 0
        [⟨some "**", some "a", some "b", false, true⟩,
         ⟨some "**", none, some "b", false, true⟩]
      = ([0], true) := by
  constructor
  · decide
  · decide

/-- C3, amended: when the rule list is a block of valid rules followed by
the first offending rule (missing required fields or failing regex
compilation), the run exits non-zero upon reaching the offending rule:
every rule before it has its files processed, and neither the offending
rule nor any later rule reaches file processing. -/
theorem c3_first_invalid_aborts (pre post : List RawRule) (bad : RawRule)
    (hpre : ∀ r ∈ pre,
      ruleInvalid r = false ∧ (r.regex && !r.regexCompiles) = false)
    (hbad : ruleInvalid bad = true ∨ (bad.regex && !bad.regexCompiles) = true) :
    mainRuleLoop 0 (pre ++ bad :: post) = (List.range pre.length, true) := by
  have aux : ∀ (l : List RawRule),
      (∀ r ∈ l, ruleInvalid r = false ∧ (r.regex && !r.regexCompiles) = false) →
      ∀ i, mainRuleLoop i (l ++ bad :: post)
        = (List.range' i l.length, true) := by
    intro l
    induction l with
    | nil =>
        intro _ i
        cases hv : ruleInvalid bad with
        | true => simp [mainRuleLoop, hv]
        | false =>
            rcases hbad with hb | hb
            · rw [hv] at hb; cases hb
            · simp [mainRuleLoop, hv, hb]
    | cons r rest ih =>
        intro hl i
        have hr := hl r (by simp)
        have hrest : ∀ x ∈ rest,
            ruleInvalid x = false ∧ (x.regex && !x.regexCompiles) = false :=
          fun x hx => hl x (by simp [hx])
        simp [mainRuleLoop, hr.1, hr.2, ih hrest (i + 1), List.range'_succ]
  have h0 := aux pre hpre 0
  rw [h0, List.range_eq_range']

theorem c3_first_invalid_aborts_witness :
    mainRuleLoop 0
        [⟨some "**", some "a", some "b", false, true⟩,
         ⟨some "x", some "a", none, false, true⟩]
      = (List.range 1, true) := by
  have h := c3_first_invalid_aborts
      [⟨some "**", some "a", some "b", false, true⟩] []
      ⟨some "x", some "a", none, false, true⟩
      (by decide) (by decide)
  simpa using h

/-- C4: the feedback loop is a no-op below three recorded durations; with
at least three, the level is incremented by exactly one iff the recent
mean is below `0.8` of the overall mean and the level is below the
ceiling, decremented by exactly one iff the recent mean is above `1.2` of
the overall mean and the level is above one, and left unchanged
otherwise; and `recordCompletion` runs the adjustment exactly on every
fifth completion since the last adjustment, resetting the counter. -/
theorem c4_feedback_loop (c : Controller) (d : ℚ)
    (hnn : ∀ x ∈ c.recentTimes, (0 : ℚ) ≤ x) :
    (c.recentTimes.length < 3 → adjustConcurrency c = c)
    ∧ (3 ≤ c.recentTimes.length →
        (((adjustConcurrency c).currentConcurrency
              = c.currentConcurrency + 1 ↔
            (recentAvg c < avgTime c * (4 / 5 : ℚ)
              ∧ c.currentConcurrency < c.maxConcurrency))
         ∧ (((adjustConcurrency c).currentConcurrency
               = c.currentConcurrency - 1 ∧ 1 < c.currentConcurrency) ↔
            (avgTime c * (6 / 5 : ℚ) < recentAvg c
              ∧ 1 < c.currentConcurrency))
         ∧ ((¬ (recentAvg c < avgTime c * (4 / 5 : ℚ)
                 ∧ c.currentConcurrency < c.maxConcurrency)) →
            (¬ (avgTime c * (6 / 5 : ℚ) < recentAvg c
                 ∧ 1 < c.currentConcurrency)) →
            (adjustConcurrency c).currentConcurrency
              = c.currentConcurrency)))
    ∧ (c.completedSinceAdjust + 1 < 5 →
        recordCompletion c d
          = { pushDuration c d with
                completedSinceAdjust := c.completedSinceAdjust + 1 })
    ∧ (5 ≤ c.completedSinceAdjust + 1 →
        recordCompletion c d
          = { adjustConcurrency
                { pushDuration c d with
                    completedSinceAdjust := c.completedSinceAdjust + 1 } with
                completedSinceAdjust := 0 }) := by
  have havg : (0 : ℚ) ≤ avgTime c := by
    unfold avgTime
    apply div_nonneg (List.sum_nonneg hnn)
    positivity
  have hnot : ¬ ((recentAvg c < avgTime c * (4 / 5 : ℚ)
        ∧ c.currentConcurrency < c.maxConcurrency)
      ∧ (avgTime c * (6 / 5 : ℚ) < recentAvg c
        ∧ 1 < c.currentConcurrency)) := by
    rintro ⟨⟨h1, _⟩, ⟨h2, _⟩⟩
    nlinarith
  refine ⟨?_, ?_, ?_, ?_⟩
  · intro hlt
    simp [adjustConcurrency, hlt]
  · intro h3
    rw [adjust_characterization c h3]
    by_cases hA : recentAvg c < avgTime c * (4 / 5 : ℚ)
        ∧ c.currentConcurrency < c.maxConcurrency
    · refine ⟨?_, ?_, ?_⟩
      · simp [hA]
      · rw [if_pos hA]
        constructor
        · rintro ⟨he, hc⟩
          exact absurd he (by omega)
        · intro hB
          exact absurd ⟨hA, hB⟩ hnot
      · intro hA2 _
        exact absurd hA hA2
    · by_cases hB : avgTime c * (6 / 5 : ℚ) < recentAvg c
          ∧ 1 < c.currentConcurrency
      · refine ⟨?_, ?_, ?_⟩
        · rw [if_neg hA, if_pos hB]
          constructor
          · intro he
            exact absurd he (by omega)
          · intro hA2
            exact absurd hA2 hA
        · rw [if_neg hA, if_pos hB]
          simp [hB.2]
          exact hB.1
        · intro _ hB2
          exact absurd hB hB2
      · refine ⟨?_, ?_, ?_⟩
        · rw [if_neg hA, if_neg hB]
          constructor
          · intro he
            exact absurd he (by omega)
          · intro hA2
            exact absurd hA2 hA
        · rw [if_neg hA, if_neg hB]
          constructor
          · rintro ⟨he, hc⟩
            exact absurd (And.intro he hc) (by omega)
          · intro hB2
            exact absurd hB2 hB
        · intro _ _
          rw [if_neg hA, if_neg hB]
  · intro hlt
    simp only [recordCompletion, pushDuration]
    rw [if_neg (show ¬ 5 ≤ c.completedSinceAdjust + 1 by omega)]
  · intro hge
    simp only [recordCompletion, pushDuration]
    rw [if_pos (show 5 ≤ c.completedSinceAdjust + 1 by omega)]

theorem c4_feedback_loop_witness :
    (adjustConcurrency ⟨4, 2, [10, 10, 10, 0, 0], 0⟩).currentConcurrency
      = 3 := by
  have h := c4_feedback_loop ⟨4, 2, [10, 10, 10, 0, 0], 0⟩ 0 (by norm_num)
  refine ((h.2.1 (by norm_num)).1).mpr ⟨?_, by norm_num⟩
  norm_num [recentAvg, avgTime]

/-- C5: the controller starts at `max(1, floor(C/2))` under the ceiling
`max(1, C)`, the invariant `1 ≤ currentConcurrency ≤ maxConcurrency`
holds initially, and every adjustment step preserves it — growth is
clamped at the ceiling and shrink at one. -/
theorem c5_concurrency_bounds (C : Nat) (c : Controller)
    (h : ControllerInv c) :
    (mkController C).currentConcurrency = Nat.max 1 (C / 2)
    ∧ ControllerInv (mkController C)
    ∧ ControllerInv (adjustConcurrency c) := by
  obtain ⟨h1, h2⟩ := h
  refine ⟨rfl, ⟨?_, ?_⟩, ?_⟩
  · simp [mkController]
  · simp [mkController]
    omega
  · unfold adjustConcurrency
    split_ifs <;> constructor <;> simp_all <;> omega

theorem c5_concurrency_bounds_witness :
    (mkController 8).currentConcurrency = Nat.max 1 (8 / 2)
    ∧ ControllerInv (mkController 8)
    ∧ ControllerInv (adjustConcurrency (mkController 8)) :=
  c5_concurrency_bounds 8 (mkController 8) (by constructor <;> decide)

/-- C6, counterexample: the accepted tree has zero string leaves matching
the rule under its filters, a retry strategy yields a tree with exactly
one matching leaf, and the two trees differ — yet the dispatcher keeps
the accepted tree, because the escalation is driven by the unfiltered
`logAllStringTags` count (here `1 ≠ 0`), not by the count of matching
leaves under the rule's filters. -/
theorem c6_counterexample :
    matchingLeaves ⟨some "facing", "west", "north", false⟩ (fun s => s)
        (NbtTag.compound [("other", .string "west")]) = []
    ∧ (matchingLeaves ⟨some "facing", "west", "north", false⟩ (fun s => s)
        (NbtTag.compound [("facing", .string "west")])).length = 1
    ∧ resolveTreeForReplacement (NbtTag.compound [("other", .string "west")])
        [some (NbtTag.compound [("facing", .string "west")])]
      = NbtTag.compound [("other", .string "west")]
    ∧ NbtTag.compound [("other", NbtTag.string "west")]
        ≠ NbtTag.compound [("facing", NbtTag.string "west")] := by
  refine ⟨?_, ?_, ?_, ?_⟩ <;>
    simp [matchingLeaves, matchingLeavesEntries, compoundEligible,
      propertyFalsy, leafReplacement, resolveTreeForReplacement,
      countStringTags, countStringTagsEntries, retrySearch]

/-- C6, amended: the retry strategies are consulted exactly when the
accepted tree contains zero string leaves in total (the rule's filters
and match play no part); the tree used for the mutation pass is then the
first successfully parsed retry tree containing at least one string leaf
— again regardless of filters or matching — and the originally accepted
tree when no retry strategy yields one. -/
theorem c6_retry_ignores_filters (accepted : NbtTag)
    (rs : List (Option NbtTag)) :
    resolveTreeForReplacement accepted rs
      = if countStringTags accepted = 0 then
          (((rs.filterMap id).find? fun t =>
              decide (0 < countStringTags t)).getD accepted)
        else accepted := by
  unfold resolveTreeForReplacement
  split_ifs with h0
  · exact retrySearch_eq_find accepted rs
  · rfl

/-- C7: for every tree and rule, the engine's mutated-count equals the
number of emitted change events, and the event list is exactly the
depth-first ordered list of replaced leaves — mapping keys in stored
order, then sequence elements in index order — each carrying the full
root-to-leaf tag path (keys as literal segments, indices as `[i]`). -/
theorem c7_events_per_replacement (R : Rule) (subst : String → String)
    (pp : List String) (t : NbtTag) :
    (replaceStringsDeep R subst pp t).2.1
        = (replaceStringsDeep R subst pp t).2.2.length
    ∧ (replaceStringsDeep R subst pp t).2.2
        = (matchingLeaves R subst t).map (renderEvent pp) := by
  rw [engine_eq_spec]
  simp

/-- C8: a decoded tree with no eligible leaf matching the rule yields
`filesChanged = 0` and `stringsChanged = 0`, no write-back occurs, and
the file contents stay exactly as they were. -/
theorem c8_no_match_zero_counts (R : Rule) (subst : String → String)
    (t : NbtTag) (h : matchingLeaves R subst t = []) :
    processDecodedTree R subst t = ⟨0, 0, false, t⟩ := by
  simp [processDecodedTree, engine_eq_spec, h]

theorem c8_no_match_zero_counts_witness :
    processDecodedTree ⟨some "facing", "west", "north", false⟩ (fun s => s)
        (NbtTag.compound [("other", .string "west")])
      = ⟨0, 0, false, NbtTag.compound [("other", .string "west")]⟩ :=
  c8_no_match_zero_counts _ _ _
    (by simp [matchingLeaves, matchingLeavesEntries, compoundEligible,
          propertyFalsy, leafReplacement])

/-- C9, counterexample: pattern matching is not idempotent even when the
replacement string does not match the pattern.  For the rule
`{from: "ab", to: "ba", regex: true}` — whose substitution leaves the
replacement string `"ba"` untouched, i.e. the proviso holds — the leaf
`"aab"` becomes `"aba"` on the first pass, and the second pass performs
one further replacement. -/
theorem c9_counterexample :
    substAbBa "ba" = "ba"
    ∧ (replaceStringsDeep ⟨none, "ab", "ba", true⟩ substAbBa []
        (NbtTag.compound [("k", .string "aab")])).1
      = NbtTag.compound [("k", .string "aba")]
    ∧ (replaceStringsDeep ⟨none, "ab", "ba", true⟩ substAbBa []
        ((replaceStringsDeep ⟨none, "ab", "ba", true⟩ substAbBa []
          (NbtTag.compound [("k", .string "aab")])).1)).2.1 = 1 := by
  have e1 : substAbBa "aab" = "aba" := by decide
  have e2 : substAbBa "aba" = "baa" := by decide
  refine ⟨by decide, ?_, ?_⟩ <;>
    simp [replaceStringsDeep, replaceEntries, compoundEligible, propertyFalsy,
      leafReplacement, e1, e2]

/-- C9, amended: in whole-value mode (`isPatternMatch = false`), applying
the engine a second time to the output of the first application performs
zero replacements, provided `toTemplate` differs from `fromPattern` —
regardless of the ambient paths and of the substitution functions
supplied for the (unused) regex branch.  For pattern matching the
corresponding statement is false. -/
theorem c9_exact_idempotent (R : Rule) (subst subst2 : String → String)
    (pp pp2 : List String) (t : NbtTag)
    (h : R.useRegex = false) (hne : R.toStr ≠ R.fromStr) :
    (replaceStringsDeep R subst2 pp2
        ((replaceStringsDeep R subst pp t).1)).2.1 = 0 := by
  simp only [engine_eq_spec]
  simp [matchingLeaves_replacedTree_exact R subst subst2 h hne t]

theorem c9_exact_idempotent_witness :
    (replaceStringsDeep ⟨none, "west", "north", false⟩ (fun s => s) []
        ((replaceStringsDeep ⟨none, "west", "north", false⟩ (fun s => s) []
          (NbtTag.compound [("a", .string "west")])).1)).2.1 = 0 :=
  c9_exact_idempotent _ _ _ _ _ _ rfl (by decide)

/-- C10: a tree whose root node is itself a string leaf is returned
untouched with zero mutations and no events, for every rule and
substitution — the engine replaces only string leaves reached as mapping
children or sequence elements. -/
theorem c10_root_string_untouched (R : Rule) (subst : String → String)
    (pp : List String) (v : String) :
    replaceStringsDeep R subst pp (NbtTag.string v)
      = (NbtTag.string v, 0, []) := by
  simp [replaceStringsDeep]

end NbtReplacer
